import Mathlib

/-!
Shallow embedding of the ChatConnect server-side state engine:
`MemStorage` from `src/server/storage.ts` (message log, typing-presence
registry, timed sweep) together with the HTTP route handlers of
`registerRoutes` (`POST /api/messages`, `POST /api/typing`,
`GET /api/typing` — `src/unnamed/part_002`).

Modelling conventions:
- Timestamps (`Date` / `getTime()` milliseconds) are `Int`.
- `randomUUID()` is modelled by a server-side counter `nextId` rendered as a
  (never-empty) string via `genId`; only freshness/opacity of ids matters to
  the spec, not their exact shape.  The counter is bumped on every operation
  that may draw a UUID, which over-approximates the draws the code makes.
- A JavaScript `Map<string, TypingStatus>` is an insertion-ordered
  association list; `Map.get` / `Map.set` are `mapGet` / `mapSet`
  (`set` replaces in place, preserving the entry's position, exactly as
  a JS `Map` does).  A real `Map` never holds two entries with one key;
  where a proof needs that invariant it appears as a `Nodup` hypothesis
  on the keys.
- The 10-second `setInterval` sweep callback is the explicit function
  `sweep`, applied to the registry state at sweep time; iterating a copy
  of the entries and deleting the stale keys of a duplicate-free map is
  the same as filtering them out, which is how `sweep` is written.
- JavaScript `String.prototype.trim()` is `jsTrim`, dropping leading and
  trailing whitespace characters from the character list of the string;
  `.length` is the character count.
- `Array.prototype.sort` is guaranteed stable, so `[...messages].sort(cmp)`
  with the comparator `a.timestamp - b.timestamp` is `List.mergeSort` with
  the Boolean order `a.timestamp ≤ b.timestamp`.
-/

namespace ChatConnect

/-- Milliseconds since the epoch, as `Date.getTime()` yields. -/
abbrev Timestamp := Int

/-- A stored chat message (table `messages` of `src/shared/schema.ts`). -/
structure Message where
  id : String
  content : String
  username : String
  timestamp : Timestamp
deriving Repr, DecidableEq

/-- A typing-presence entry (table `typing_status` of `src/shared/schema.ts`). -/
structure TypingStatus where
  id : String
  username : String
  lastTyping : Timestamp
deriving Repr, DecidableEq

/-- The in-memory state of `MemStorage`: the message array, the
`typingUsers` map, and the counter standing in for `randomUUID()`. -/
structure MemStorage where
  messages : List Message
  typingUsers : List (String × TypingStatus)
  nextId : Nat
deriving Repr, DecidableEq

/-- The state the `MemStorage` constructor builds (empty log, empty map). -/
def emptyStorage : MemStorage :=
  { messages := [], typingUsers := [], nextId := 0 }

/-- Model of `randomUUID()`: the `n`-th id the server draws.  Never the
empty string, which is what the `existingStatus?.id || randomUUID()`
fallback in `updateTypingStatus` tests for. -/
def genId (n : Nat) : String :=
  "id-" ++ toString n

/-- `Map.get`: the value at the first (for a real `Map`: only) entry with
the given key. -/
def mapGet (m : List (String × TypingStatus)) (k : String) : Option TypingStatus :=
  match m with
  | [] => none
  | (k', v) :: rest => if k' = k then some v else mapGet rest k

/-- `Map.set`: replace the entry with the given key in place, or append a
new entry when the key is absent. -/
def mapSet (m : List (String × TypingStatus)) (k : String) (v : TypingStatus) :
    List (String × TypingStatus) :=
  match m with
  | [] => [(k, v)]
  | (k', v') :: rest => if k' = k then (k, v) :: rest else (k', v') :: mapSet rest k v

/-- The characters `String.prototype.trim()` strips (the ASCII whitespace
JavaScript recognises, plus NBSP). -/
def jsWhitespaceChar (c : Char) : Bool :=
  c == ' ' || c == '\t' || c == '\n' || c == '\r' || c == '\x0b' || c == '\x0c' || c == '\xa0'

/-- `String.prototype.trim()`. -/
def jsTrim (s : String) : String :=
  ⟨((s.data.dropWhile jsWhitespaceChar).reverse.dropWhile jsWhitespaceChar).reverse⟩

/-- `MemStorage.getMessages`: `[...this.messages].sort((a, b) =>
a.timestamp - b.timestamp)` — a stable sort of a copy of the log by
timestamp. -/
def getMessages (st : MemStorage) : List Message :=
  st.messages.mergeSort (fun a b => decide (a.timestamp ≤ b.timestamp))

/-- `MemStorage.createMessage`: assign a fresh id and the current server
time, push onto the log, return the stored message. -/
def createMessage (st : MemStorage) (content username : String) (now : Timestamp) :
    Message × MemStorage :=
  let message : Message :=
    { id := genId st.nextId, content := content, username := username, timestamp := now }
  (message,
   { st with messages := st.messages ++ [message], nextId := st.nextId + 1 })

/-- `MemStorage.updateTypingStatus`: build the new status with
`existingStatus?.id || randomUUID()` (the existing id unless it is absent
or falsy, i.e. empty), `lastTyping = new Date()`, and `Map.set` it. -/
def updateTypingStatus (st : MemStorage) (username : String) (now : Timestamp) :
    TypingStatus × MemStorage :=
  let existingStatus := mapGet st.typingUsers username
  let typingStatus : TypingStatus :=
    { id := match existingStatus with
            | some s => if s.id = "" then genId st.nextId else s.id
            | none => genId st.nextId,
      username := username,
      lastTyping := now }
  (typingStatus,
   { st with typingUsers := mapSet st.typingUsers username typingStatus,
             nextId := st.nextId + 1 })

/-- `MemStorage.getActiveTypingUsers`: every username whose entry's
`lastTyping` is at or after `now - 3000` and that differs from the
(optional) `excludeUsername`. -/
def getActiveTypingUsers (st : MemStorage) (excludeUsername : Option String)
    (now : Timestamp) : List String :=
  let cutoff := now - 3000
  (st.typingUsers.filter fun p =>
    decide (cutoff ≤ p.2.lastTyping) && decide (some p.1 ≠ excludeUsername)).map Prod.fst

/-- The `setInterval` callback of the `MemStorage` constructor, applied to
the registry at sweep time: delete every entry with
`lastTyping < now - 5000`. -/
def sweep (st : MemStorage) (now : Timestamp) : MemStorage :=
  let cutoff := now - 5000
  { st with typingUsers := st.typingUsers.filter fun p => !decide (p.2.lastTyping < cutoff) }

/-- What a route handler hands back: an HTTP status with either the JSON
payload or an error message. -/
inductive ApiResult (α : Type) where
  | ok (status : Nat) (value : α)
  | error (status : Nat) (message : String)
deriving Repr, DecidableEq

/-- Whether an `ApiResult` is the error case. -/
def ApiResult.isError {α : Type} : ApiResult α → Bool
  | .ok _ _ => false
  | .error _ _ => true

/-- The `POST /api/messages` handler on an already-parsed body: the three
validation checks (trimmed content non-empty, content at most 500 long,
trimmed username non-empty) and then `createMessage`. -/
def postMessage (st : MemStorage) (content username : String) (now : Timestamp) :
    ApiResult Message × MemStorage :=
  if jsTrim content = "" then
    (.error 400 "Message content cannot be empty", st)
  else if content.length > 500 then
    (.error 400 "Message too long", st)
  else if jsTrim username = "" then
    (.error 400 "Username is required", st)
  else
    let r := createMessage st content username now
    (.ok 201 r.1, r.2)

/-- The `POST /api/typing` handler on an already-parsed body: the trimmed
username must be non-empty, then `updateTypingStatus`. -/
def postTyping (st : MemStorage) (username : String) (now : Timestamp) :
    ApiResult TypingStatus × MemStorage :=
  if jsTrim username = "" then
    (.error 400 "Username is required", st)
  else
    let r := updateTypingStatus st username now
    (.ok 200 r.1, r.2)

/-- The `Map` invariant: no two entries of the registry share a key. -/
def KeysNodup (st : MemStorage) : Prop :=
  (st.typingUsers.map Prod.fst).Nodup

instance (st : MemStorage) : Decidable (KeysNodup st) := by
  unfold KeysNodup; infer_instance

/-! Helper lemmas about the map operations and id generation. -/

theorem genId_ne_empty (n : Nat) : genId n ≠ "" := by
  intro h
  have hd := congrArg String.data h
  rw [genId, String.data_append] at hd
  exact absurd hd (by simp)

theorem mapGet_mapSet_self (m : List (String × TypingStatus)) (k : String)
    (v : TypingStatus) : mapGet (mapSet m k v) k = some v := by
  induction m with
  | nil => simp [mapSet, mapGet]
  | cons p rest ih =>
    obtain ⟨k', v'⟩ := p
    by_cases h : k' = k <;> simp [mapSet, mapGet, h, ih]

theorem mem_keys_mapSet {m : List (String × TypingStatus)} {k a : String}
    {v : TypingStatus} (h : a ∈ (mapSet m k v).map Prod.fst) :
    a ∈ m.map Prod.fst ∨ a = k := by
  induction m with
  | nil => simp [mapSet] at h; exact Or.inr h
  | cons p rest ih =>
    obtain ⟨k', v'⟩ := p
    simp only [mapSet] at h
    split at h
    · simp only [List.map_cons, List.mem_cons] at h ⊢
      exact h.elim (fun h => Or.inr h) (fun h => Or.inl (Or.inr h))
    · simp only [List.map_cons, List.mem_cons] at h ⊢
      rcases h with h | h
      · exact Or.inl (Or.inl h)
      · exact (ih h).elim (fun h => Or.inl (Or.inr h)) Or.inr

theorem mapSet_keys_nodup {m : List (String × TypingStatus)} {k : String}
    {v : TypingStatus} (h : (m.map Prod.fst).Nodup) :
    ((mapSet m k v).map Prod.fst).Nodup := by
  induction m with
  | nil => simp [mapSet]
  | cons p rest ih =>
    obtain ⟨k', v'⟩ := p
    simp only [List.map_cons, List.nodup_cons] at h
    simp only [mapSet]
    split
    · rename_i hk
      simp only [List.map_cons, List.nodup_cons]
      exact ⟨hk ▸ h.1, h.2⟩
    · rename_i hk
      simp only [List.map_cons, List.nodup_cons]
      refine ⟨fun hmem => ?_, ih h.2⟩
      rcases mem_keys_mapSet hmem with hin | rfl
      · exact h.1 hin
      · exact hk rfl

theorem filter_key_eq_nil {m : List (String × TypingStatus)} {k : String}
    (h : k ∉ m.map Prod.fst) :
    m.filter (fun p => p.1 == k) = [] := by
  induction m with
  | nil => rfl
  | cons p rest ih =>
    simp only [List.map_cons, List.mem_cons, not_or] at h
    have hne : (p.1 == k) = false := by
      simp only [beq_eq_false_iff_ne]
      exact fun hpk => h.1 hpk.symm
    simp [List.filter_cons, hne, ih h.2]

theorem mapSet_filter_self {m : List (String × TypingStatus)} {k : String}
    {v : TypingStatus} (hnd : (m.map Prod.fst).Nodup) :
    (mapSet m k v).filter (fun p => p.1 == k) = [(k, v)] := by
  induction m with
  | nil => simp [mapSet, List.filter]
  | cons p rest ih =>
    obtain ⟨k', v'⟩ := p
    simp only [List.map_cons, List.nodup_cons] at hnd
    simp only [mapSet]
    split
    · rename_i hk
      simp [List.filter_cons, filter_key_eq_nil (hk ▸ hnd.1)]
    · rename_i hk
      have hne : (k' == k) = false := by simp [hk]
      simp [List.filter_cons, hne, ih hnd.2]

theorem nodup_value_unique {m : List (String × TypingStatus)} {k : String}
    {v v' : TypingStatus} (hnd : (m.map Prod.fst).Nodup)
    (h : (k, v) ∈ m) (h' : (k, v') ∈ m) : v = v' := by
  induction m with
  | nil => cases h
  | cons p rest ih =>
    simp only [List.map_cons, List.nodup_cons] at hnd
    rcases List.mem_cons.mp h with h1 | h1 <;> rcases List.mem_cons.mp h' with h2 | h2
    · exact (Prod.ext_iff.mp (h1.trans h2.symm)).2
    · have hm : ((k, v') : String × TypingStatus).1 ∈ rest.map Prod.fst :=
        List.mem_map_of_mem Prod.fst h2
      exact absurd (show p.1 ∈ rest.map Prod.fst by rw [← h1]; exact hm) hnd.1
    · have hm : ((k, v) : String × TypingStatus).1 ∈ rest.map Prod.fst :=
        List.mem_map_of_mem Prod.fst h1
      exact absurd (show p.1 ∈ rest.map Prod.fst by rw [← h2]; exact hm) hnd.1
    · exact ih hnd.2 h1 h2

theorem updateTypingStatus_fst (st : MemStorage) (A : String) (t : Timestamp) :
    (updateTypingStatus st A t).1 =
      { id := match mapGet st.typingUsers A with
              | some s => if s.id = "" then genId st.nextId else s.id
              | none => genId st.nextId,
        username := A, lastTyping := t } := rfl

theorem updateTypingStatus_id_ne_empty (st : MemStorage) (A : String)
    (t : Timestamp) : (updateTypingStatus st A t).1.id ≠ "" := by
  unfold updateTypingStatus
  cases h : mapGet st.typingUsers A with
  | none => simpa [h] using genId_ne_empty st.nextId
  | some s =>
    by_cases hid : s.id = ""
    · simpa [h, hid] using genId_ne_empty st.nextId
    · simp [h, hid]

/-- The timestamp order used by `getMessages` is transitive. -/
theorem tsLE_trans (a b c : Message) :
    decide (a.timestamp ≤ b.timestamp) → decide (b.timestamp ≤ c.timestamp) →
    decide (a.timestamp ≤ c.timestamp) := by
  intro hab hbc
  simp only [decide_eq_true_eq] at hab hbc ⊢
  exact le_trans hab hbc

/-- The timestamp order used by `getMessages` is total. -/
theorem tsLE_total (a b : Message) :
    decide (a.timestamp ≤ b.timestamp) || decide (b.timestamp ≤ a.timestamp) := by
  simp only [Bool.or_eq_true, decide_eq_true_eq]
  exact le_total _ _

/-- C1: for every storage state (hence after every sequence of appends),
`getMessages` returns exactly the stored messages (a permutation of the
log), sorted non-decreasing by timestamp, and any two messages that sit in
the log in a given order with equal timestamps appear in the result in
that same order (stability of the sort, hence append order preserved). -/
theorem getMessages_sorted_stable (st : MemStorage) :
    (getMessages st).Perm st.messages ∧
    (getMessages st).Pairwise (fun a b => a.timestamp ≤ b.timestamp) ∧
    ∀ a b : Message, a.timestamp = b.timestamp → [a, b].Sublist st.messages →
      [a, b].Sublist (getMessages st) := by
  refine ⟨List.mergeSort_perm _ _, ?_, ?_⟩
  · have h := List.sorted_mergeSort tsLE_trans tsLE_total st.messages
    exact h.imp (by simp only [decide_eq_true_eq]; exact fun h => h)
  · intro a b hab hsub
    exact List.pair_sublist_mergeSort tsLE_trans tsLE_total
      (by simp [hab]) hsub

/-- C2: the `POST /api/messages` handler rejects content of length 0 or
above 500 and an empty author with a 400 validation error, leaving the
whole storage state (in particular the log) unchanged. -/
theorem postMessage_rejects_invalid (st : MemStorage) (content username : String)
    (now : Timestamp)
    (h : content.length = 0 ∨ 500 < content.length ∨ username = "") :
    (∃ m, (postMessage st content username now).1 = ApiResult.error 400 m) ∧
    (postMessage st content username now).2 = st := by
  unfold postMessage
  split
  · exact ⟨⟨_, rfl⟩, rfl⟩
  · split
    · exact ⟨⟨_, rfl⟩, rfl⟩
    · split
      · exact ⟨⟨_, rfl⟩, rfl⟩
      · rename_i h1 h2 h3
        exfalso
        rcases h with h0 | h500 | hu
        · apply h1
          have hc : content = "" := by
            cases content with
            | mk data =>
              cases data with
              | nil => rfl
              | cons c cs => simp [String.length] at h0
          rw [hc]
          rfl
        · exact h2 h500
        · apply h3
          rw [hu]
          rfl

/-- C2 witness: the empty content is rejected on the empty storage. -/
theorem postMessage_rejects_invalid_witness :
    (∃ m, (postMessage emptyStorage "" "alice" 0).1 = ApiResult.error 400 m) ∧
    (postMessage emptyStorage "" "alice" 0).2 = emptyStorage :=
  postMessage_rejects_invalid emptyStorage "" "alice" 0 (Or.inl (by decide))

/-- C3: `getActiveTypingUsers` with `excludeUsername = some A` never lists
`A`, whatever the registry holds; and (on a registry obeying the `Map`
key-uniqueness invariant) an author whose entry's `lastTyping` lies
strictly before `now - 3000` is never listed, for any exclusion. -/
theorem activeUsers_excludes (st : MemStorage) (A B : String) (s : TypingStatus)
    (e : Option String) (now : Timestamp) (hnd : KeysNodup st) :
    A ∉ getActiveTypingUsers st (some A) now ∧
    ((B, s) ∈ st.typingUsers → s.lastTyping < now - 3000 →
      B ∉ getActiveTypingUsers st e now) := by
  constructor
  · intro hA
    simp only [getActiveTypingUsers, List.mem_map, List.mem_filter] at hA
    obtain ⟨p, ⟨_, hcond⟩, hfst⟩ := hA
    simp only [Bool.and_eq_true, decide_eq_true_eq] at hcond
    exact hcond.2 (by rw [hfst])
  · intro hmem hstale hB
    simp only [getActiveTypingUsers, List.mem_map, List.mem_filter] at hB
    obtain ⟨⟨k, v⟩, ⟨hp, hcond⟩, hfst⟩ := hB
    simp only [Bool.and_eq_true, decide_eq_true_eq] at hcond
    have hv : v = s := by
      apply nodup_value_unique hnd ?_ hmem
      rw [show k = B from hfst] at hp
      exact hp
    have h1 := hcond.1
    rw [hv] at h1
    exact absurd h1 (not_le.mpr hstale)

/-- C3 witness: on a one-entry registry, the active query excludes the
querying author and the stale author. -/
theorem activeUsers_excludes_witness :
    "alice" ∉ getActiveTypingUsers
        { emptyStorage with
            typingUsers := [("bob", ⟨"i", "bob", 0⟩)] } (some "alice") 10000 ∧
    (("bob", (⟨"i", "bob", 0⟩ : TypingStatus)) ∈
        ({ emptyStorage with
            typingUsers := [("bob", ⟨"i", "bob", 0⟩)] } : MemStorage).typingUsers →
      (0 : Int) < 10000 - 3000 →
      "bob" ∉ getActiveTypingUsers
        { emptyStorage with
            typingUsers := [("bob", ⟨"i", "bob", 0⟩)] } none 10000) :=
  activeUsers_excludes
    { emptyStorage with typingUsers := [("bob", ⟨"i", "bob", 0⟩)] }
    "alice" "bob" ⟨"i", "bob", 0⟩ none 10000 (by decide)

/-- C4: the sweep keeps exactly the entries whose `lastTyping` is at or
after `now - 5000` — it removes exactly the entries older than the reap
window, judged against the `lastTyping` stored at sweep time (the sweep is
a function of the registry state at sweep time, so an entry refreshed
after the sweep decision is judged by its refreshed time and survives).
And after the sweep has removed an author, a subsequent touch succeeds: it
creates and returns a fresh entry (fresh id, `lastTyping` the touch time)
rather than failing. -/
theorem sweep_reaps_exactly_touch_recreates (st : MemStorage)
    (now t2 : Timestamp) (A : String) :
    (∀ p : String × TypingStatus,
      p ∈ (sweep st now).typingUsers ↔
        p ∈ st.typingUsers ∧ ¬(p.2.lastTyping < now - 5000)) ∧
    (mapGet (sweep st now).typingUsers A = none →
      mapGet (updateTypingStatus (sweep st now) A t2).2.typingUsers A
          = some (updateTypingStatus (sweep st now) A t2).1 ∧
      (updateTypingStatus (sweep st now) A t2).1.lastTyping = t2 ∧
      (updateTypingStatus (sweep st now) A t2).1.id
          = genId (sweep st now).nextId) := by
  constructor
  · intro p
    simp [sweep, List.mem_filter]
  · intro hnone
    refine ⟨?_, ?_, ?_⟩
    · simp only [updateTypingStatus]
      exact mapGet_mapSet_self _ _ _
    · simp [updateTypingStatus]
    · simp [updateTypingStatus, hnone]

/-- C5: touching the same author twice (on a registry with unique keys)
leaves exactly one entry for that author, carrying the second touch's
time and the id the first touch produced. -/
theorem touch_twice_single_entry (st : MemStorage) (A : String)
    (t1 t2 : Timestamp) (hnd : KeysNodup st) :
    ((updateTypingStatus (updateTypingStatus st A t1).2 A t2).2.typingUsers.filter
        (fun p => p.1 == A))
      = [(A, (updateTypingStatus (updateTypingStatus st A t1).2 A t2).1)] ∧
    (updateTypingStatus (updateTypingStatus st A t1).2 A t2).1.lastTyping = t2 ∧
    (updateTypingStatus (updateTypingStatus st A t1).2 A t2).1.id
      = (updateTypingStatus st A t1).1.id := by
  have hnd1 : (((updateTypingStatus st A t1).2.typingUsers.map Prod.fst)).Nodup := by
    simp only [updateTypingStatus]
    exact mapSet_keys_nodup hnd
  have hget : mapGet (updateTypingStatus st A t1).2.typingUsers A
      = some (updateTypingStatus st A t1).1 := by
    simp only [updateTypingStatus]
    exact mapGet_mapSet_self _ _ _
  have hid : (updateTypingStatus st A t1).1.id ≠ "" :=
    updateTypingStatus_id_ne_empty st A t1
  refine ⟨?_, ?_, ?_⟩
  · conv in (updateTypingStatus (updateTypingStatus st A t1).2 A t2).2 =>
      rw [updateTypingStatus]
    exact mapSet_filter_self hnd1
  · simp [updateTypingStatus]
  · rw [updateTypingStatus_fst, hget]
    simp [hid]

/-- C5 witness: two touches on the empty registry. -/
theorem touch_twice_single_entry_witness :
    ((updateTypingStatus (updateTypingStatus emptyStorage "alice" 1).2 "alice" 2).2.typingUsers.filter
        (fun p => p.1 == "alice"))
      = [("alice",
          (updateTypingStatus (updateTypingStatus emptyStorage "alice" 1).2 "alice" 2).1)] ∧
    (updateTypingStatus (updateTypingStatus emptyStorage "alice" 1).2 "alice" 2).1.lastTyping
      = 2 ∧
    (updateTypingStatus (updateTypingStatus emptyStorage "alice" 1).2 "alice" 2).1.id
      = (updateTypingStatus emptyStorage "alice" 1).1.id :=
  touch_twice_single_entry emptyStorage "alice" 1 2 (by decide)

/-- C6: the `POST /api/typing` handler fails with a 400 validation error
and leaves the state untouched when the (trimmed) author is empty; when it
is non-empty it stores a signal for the author carrying `lastTyping = now`
(updating the existing entry, or creating one when none exists) and
returns that signal with status 200. -/
theorem postTyping_validates_and_touches (st : MemStorage) (username : String)
    (now : Timestamp) :
    (jsTrim username = "" →
      postTyping st username now
        = (ApiResult.error 400 "Username is required", st)) ∧
    (jsTrim username ≠ "" →
      (postTyping st username now).1
          = ApiResult.ok 200 (updateTypingStatus st username now).1 ∧
      (postTyping st username now).2 = (updateTypingStatus st username now).2 ∧
      mapGet (postTyping st username now).2.typingUsers username
          = some (updateTypingStatus st username now).1 ∧
      (updateTypingStatus st username now).1.lastTyping = now ∧
      (updateTypingStatus st username now).1.username = username) := by
  constructor
  · intro h
    simp [postTyping, h]
  · intro h
    refine ⟨by simp [postTyping, h], by simp [postTyping, h], ?_, ?_, ?_⟩
    · simp only [postTyping, if_neg h]
      simp only [updateTypingStatus]
      exact mapGet_mapSet_self _ _ _
    · simp [updateTypingStatus]
    · simp [updateTypingStatus]

/-- C7: on valid input the `POST /api/messages` handler returns 201 with
the stored message, whose id is the server-drawn one and whose timestamp
is the server clock's `now` (the parsed body has no timestamp field the
client could supply); the log becomes the old log with exactly that one
message appended, every pre-existing entry untouched in place. -/
theorem postMessage_success (st : MemStorage) (content username : String)
    (now : Timestamp)
    (h1 : jsTrim content ≠ "") (h2 : content.length ≤ 500)
    (h3 : jsTrim username ≠ "") :
    (postMessage st content username now).1
        = ApiResult.ok 201
            { id := genId st.nextId, content := content, username := username,
              timestamp := now } ∧
    (postMessage st content username now).2.messages
        = st.messages
          ++ [{ id := genId st.nextId, content := content, username := username,
                timestamp := now }] := by
  have h2' : ¬ content.length > 500 := by omega
  constructor <;> simp [postMessage, createMessage, if_neg h1, if_neg h2', if_neg h3]

/-- C7 witness: a concrete valid append on the empty storage. -/
theorem postMessage_success_witness :
    (postMessage emptyStorage "hi" "alice" 1000).1
        = ApiResult.ok 201
            { id := genId emptyStorage.nextId, content := "hi", username := "alice",
              timestamp := 1000 } ∧
    (postMessage emptyStorage "hi" "alice" 1000).2.messages
        = emptyStorage.messages
          ++ [{ id := genId emptyStorage.nextId, content := "hi", username := "alice",
                timestamp := 1000 }] :=
  postMessage_success emptyStorage "hi" "alice" 1000 (by decide) (by decide) (by decide)

/-- C8: `getMessages` hands back a snapshot.  In this pure embedding of
`[...this.messages].sort(...)` the returned sequence is a value built from
a copy of the log: it is a permutation of the log at call time (no entry
corrupted, lost or duplicated), a later append turns the log into the old
log plus one new message (leaving every entry of the earlier snapshot in
place), and the earlier snapshot embeds without duplication into the
snapshot taken after the append. -/
theorem getMessages_snapshot (st : MemStorage) (content username : String)
    (now : Timestamp) :
    (getMessages st).Perm st.messages ∧
    (createMessage st content username now).2.messages
        = st.messages ++ [(createMessage st content username now).1] ∧
    (getMessages st).Subperm
      (getMessages (createMessage st content username now).2) := by
  refine ⟨List.mergeSort_perm _ _, rfl, ?_⟩
  have hp1 : (getMessages st).Perm st.messages := List.mergeSort_perm _ _
  have hp2 : ((createMessage st content username now).2.messages).Perm
      (getMessages (createMessage st content username now).2) :=
    (List.mergeSort_perm _ _).symm
  have hs : st.messages.Sublist (createMessage st content username now).2.messages :=
    List.sublist_append_left _ _
  exact (hp1.subperm.trans hs.subperm).trans hp2.subperm

/-- The trim of an all-whitespace string is empty. -/
theorem jsTrim_all_whitespace {s : String}
    (h : ∀ c ∈ s.data, jsWhitespaceChar c = true) : jsTrim s = "" := by
  unfold jsTrim
  have hd : s.data.dropWhile jsWhitespaceChar = [] :=
    List.dropWhile_eq_nil_iff.mpr h
  rw [hd]
  rfl

/-- C9: the `POST /api/messages` handler trims before testing emptiness:
content made only of whitespace (of any length from 1 to 500) is rejected
as empty with no state change, and the author field is trimmed the same
way — a valid content with an all-whitespace author is rejected with the
username error, again with no state change. -/
theorem postMessage_whitespace_trimmed (st : MemStorage)
    (content content2 username : String) (now : Timestamp)
    (hws : ∀ c ∈ content.data, jsWhitespaceChar c = true)
    (_hl1 : 1 ≤ content.length) (_hl2 : content.length ≤ 500)
    (hc2 : jsTrim content2 ≠ "") (hc2l : content2.length ≤ 500)
    (hwsu : ∀ c ∈ username.data, jsWhitespaceChar c = true) :
    postMessage st content username now
        = (ApiResult.error 400 "Message content cannot be empty", st) ∧
    postMessage st content2 username now
        = (ApiResult.error 400 "Username is required", st) := by
  constructor
  · unfold postMessage
    rw [if_pos (jsTrim_all_whitespace hws)]
  · unfold postMessage
    rw [if_neg hc2, if_neg (by omega : ¬ content2.length > 500),
      if_pos (jsTrim_all_whitespace hwsu)]

/-- C9 witness: a single space as content and as author. -/
theorem postMessage_whitespace_trimmed_witness :
    postMessage emptyStorage " " " " 0
        = (ApiResult.error 400 "Message content cannot be empty", emptyStorage) ∧
    postMessage emptyStorage "hi" " " 0
        = (ApiResult.error 400 "Username is required", emptyStorage) :=
  postMessage_whitespace_trimmed emptyStorage " " "hi" " " 0 (by decide) (by decide)
    (by decide) (by decide) (by decide) (by decide)

/-- C10: the active window is inclusive — an entry whose `lastTyping` is
exactly `now - 3000` is still listed by `getActiveTypingUsers` (when its
author is not the excluded one) — while the reap boundary is exclusive —
an entry whose `lastTyping` is exactly `now - 5000` at sweep time
survives the sweep. -/
theorem active_inclusive_reap_exclusive (st : MemStorage) (A B : String)
    (s s2 : TypingStatus) (e : Option String) (now now2 : Timestamp)
    (hA : (A, s) ∈ st.typingUsers) (hAs : s.lastTyping = now - 3000)
    (he : some A ≠ e)
    (hB : (B, s2) ∈ st.typingUsers) (hBs : s2.lastTyping = now2 - 5000) :
    A ∈ getActiveTypingUsers st e now ∧
    (B, s2) ∈ (sweep st now2).typingUsers := by
  constructor
  · simp only [getActiveTypingUsers, List.mem_map]
    refine ⟨(A, s), List.mem_filter.mpr ⟨hA, ?_⟩, rfl⟩
    simp [hAs, he]
  · simp only [sweep, List.mem_filter]
    refine ⟨hB, ?_⟩
    simp [hBs]

/-- C10 witness: one author exactly on the active boundary, one exactly on
the reap boundary. -/
theorem active_inclusive_reap_exclusive_witness :
    "alice" ∈ getActiveTypingUsers
        { emptyStorage with
            typingUsers := [("alice", ⟨"i", "alice", 7000⟩),
                            ("bob", ⟨"j", "bob", 5000⟩)] }
        (some "carol") 10000 ∧
    ("bob", (⟨"j", "bob", 5000⟩ : TypingStatus)) ∈
      (sweep
        { emptyStorage with
            typingUsers := [("alice", ⟨"i", "alice", 7000⟩),
                            ("bob", ⟨"j", "bob", 5000⟩)] }
        10000).typingUsers :=
  active_inclusive_reap_exclusive
    { emptyStorage with
        typingUsers := [("alice", ⟨"i", "alice", 7000⟩),
                        ("bob", ⟨"j", "bob", 5000⟩)] }
    "alice" "bob" ⟨"i", "alice", 7000⟩ ⟨"j", "bob", 5000⟩ (some "carol")
    10000 10000 (by decide) (by decide) (by decide) (by decide) (by decide)

end ChatConnect
